import Mathlib

/-!
Verification of the bounded asset-history registry of the `test-generator`
repository (a browser tool generating placeholder image/video assets).

The embedding translates the registry logic of
`src/components/VideoGenerator.vue`, `src/components/DerivativeGenerator.vue`
(which also contains the image-generator component) and `src/lib/ffmpeg.ts`
into pure Lean definitions:

* `GeneratedAsset` / `AssetStatus` mirror `src/types.ts`.
* A registry state (`RegState`) is the component's `results` ref together
  with the multiset of object-URLs released so far (`released` records each
  `URL.revokeObjectURL` call performed by `cleanupAsset`, newest first).
* `pushResult`, `removeAsset` (video variant, with the pending guard),
  `removeAssetD` (derivative variant, without the guard) and the field
  mutations of `generateVideo`'s completion are translated line by line.
* Asynchronous interleavings are modelled by small-step transition systems
  (`VGStep`, `DGStep`, `FFStep`): each step is one synchronous JavaScript
  segment between `await` points, which run atomically on the single
  browser thread.
-/

namespace TestGenerator

/-- Asset lifecycle status, from `src/types.ts` (`AssetStatus`). -/
inductive AssetStatus
  | pending
  | ready
  | error
deriving DecidableEq

/-- Media category of an asset, from `src/types.ts` (`kind: 'image' | 'video'`). -/
inductive AssetKind
  | image
  | video
deriving DecidableEq

/-- A generated-asset record, from `src/types.ts` (`GeneratedAsset`).
`status`, `progress` and `hash` are optional fields in the TypeScript type.
`size` and `createdAt` are non-negative integers in practice (byte count and
`Date.now()` milliseconds); `progress` only ever takes the values 0 and 1
in the source, so it is modelled as a natural number. -/
structure GeneratedAsset where
  id : String
  kind : AssetKind
  url : String
  mime : String
  name : String
  detail : String
  size : Nat
  sizeLabel : String
  createdAt : Nat
  status : Option AssetStatus
  progress : Option Nat
  hash : Option String
deriving DecidableEq

/-- Registry state: the component's `results` list (newest first) and the
sequence of object-URLs released so far, newest first.  Every
`URL.revokeObjectURL(u)` call performed by `cleanupAsset` is recorded by
prepending `u` to `released`, so "released exactly once" is visible as
exactly one new entry. -/
structure RegState where
  results : List GeneratedAsset
  released : List String
deriving DecidableEq

/-- The initial registry: `ref<GeneratedAsset[]>([])`, nothing released. -/
def RegState.init : RegState := ⟨[], []⟩

/-- `cleanupAsset` (VideoGenerator.vue lines 52-54, and the identical copies
in DerivativeGenerator.vue): `if (asset?.url) URL.revokeObjectURL(asset.url)`.
The argument is optional (`asset?`), and the empty string is falsy in
JavaScript, so nothing is released for a missing asset or an empty url. -/
def cleanupAsset (asset : Option GeneratedAsset) (released : List String) : List String :=
  match asset with
  | none => released
  | some a => if a.url = "" then released else a.url :: released

/-- `pushResult` (VideoGenerator.vue lines 56-62; identical copies at
DerivativeGenerator.vue lines 43-49 and 418-424):
prepend the asset; if the length now exceeds `maxHistory`, `pop()` the last
(oldest) element and `cleanupAsset` it. -/
def pushResult (maxHistory : Nat) (asset : GeneratedAsset) (s : RegState) : RegState :=
  let grown := asset :: s.results
  if grown.length > maxHistory then
    { results := grown.dropLast
      released := cleanupAsset grown.getLast? s.released }
  else
    { s with results := grown }

/-- Folding a sequence of `pushResult` calls over a start state, in call
order (`insert` of the spec, applied repeatedly). -/
def insertAll (maxHistory : Nat) (l : List GeneratedAsset) (s : RegState) : RegState :=
  l.foldl (fun acc a => pushResult maxHistory a acc) s

/-- `removeAsset` (VideoGenerator.vue lines 216-222): find the record by id;
refuse if absent or `pending`; otherwise release its url and filter it out.
The returned boolean reports whether the deletion happened (the source
signals this by emitting the success toast). -/
def removeAsset (assetId : String) (s : RegState) : Bool × RegState :=
  match s.results.find? (fun item => item.id == assetId) with
  | none => (false, s)
  | some asset =>
    if asset.status = some AssetStatus.pending then (false, s)
    else
      (true,
        { results := s.results.filter (fun item => item.id != assetId)
          released := cleanupAsset (some asset) s.released })

/-- `removeAsset` of the derivative generator (DerivativeGenerator.vue lines
51-57): identical to the video variant except that there is no
pending-status guard — any found record is released and removed. -/
def removeAssetD (assetId : String) (s : RegState) : Bool × RegState :=
  match s.results.find? (fun item => item.id == assetId) with
  | none => (false, s)
  | some asset =>
    (true,
      { results := s.results.filter (fun item => item.id != assetId)
        released := cleanupAsset (some asset) s.released })

/-! ### Basic registry lemmas -/

/-- One `pushResult` keeps the length bound: if the registry held at most
`maxHistory` records before the call, it does after. -/
theorem pushResult_length_le (m : Nat) (a : GeneratedAsset) (s : RegState)
    (h : s.results.length ≤ m) : (pushResult m a s).results.length ≤ m := by
  unfold pushResult
  by_cases hc : (a :: s.results).length > m
  · simp only [hc, if_pos]
    simp only [List.length_dropLast, List.length_cons, Nat.add_sub_cancel]
    exact h
  · simp only [hc, if_neg, not_false_iff]
    simpa using Nat.le_of_not_lt hc

/-- When the registry is not over capacity, `pushResult` computes a plain
truncated prepend: the new results are `(a :: old).take m`. -/
theorem pushResult_results_eq_take (m : Nat) (a : GeneratedAsset) (s : RegState)
    (h : s.results.length ≤ m) :
    (pushResult m a s).results = (a :: s.results).take m := by
  unfold pushResult
  by_cases hc : (a :: s.results).length > m
  · simp only [hc, if_pos]
    have hlen : (a :: s.results).length = m + 1 := by
      simp only [List.length_cons] at hc ⊢
      omega
    rw [List.dropLast_eq_take, hlen, Nat.add_sub_cancel]
  · simp only [hc, if_neg, not_false_iff]
    have : (a :: s.results).length ≤ m := Nat.le_of_not_lt hc
    exact (List.take_of_length_le this).symm

/-- Truncating the second summand of an append before taking changes
nothing. -/
theorem take_append_take (x y : List GeneratedAsset) (m : Nat) :
    (x ++ y.take m).take m = (x ++ y).take m := by
  rw [List.take_append_eq_append_take, List.take_append_eq_append_take,
    List.take_take]
  have : min (m - x.length) m = m - x.length := Nat.min_eq_left (Nat.sub_le m x.length)
  rw [this]

/-- Closed form for a run of inserts: starting within capacity, the registry
contents after inserting `l` in order are the `m` newest records —
`(l.reverse ++ start).take m`. -/
theorem insertAll_results (m : Nat) (l : List GeneratedAsset) (s : RegState)
    (h : s.results.length ≤ m) :
    (insertAll m l s).results = (l.reverse ++ s.results).take m := by
  induction l generalizing s with
  | nil => simpa [insertAll] using (List.take_of_length_le h).symm
  | cons a t ih =>
    have hstep : (pushResult m a s).results = (a :: s.results).take m :=
      pushResult_results_eq_take m a s h
    have hlen : (pushResult m a s).results.length ≤ m :=
      pushResult_length_le m a s h
    have := ih (pushResult m a s) hlen
    rw [insertAll] at this ⊢
    simp only [List.foldl_cons] at this ⊢
    rw [this, hstep, take_append_take, List.reverse_cons, List.append_assoc,
      List.cons_append, List.nil_append]

/-- A sample record for concrete witness evaluations. -/
def sampleAsset (i : Nat) (u : String) (st : Option AssetStatus) : GeneratedAsset :=
  { id := toString i, kind := AssetKind.video, url := u, mime := "video/mp4"
    name := "v.mp4", detail := "d", size := 0, sizeLabel := "0 B"
    createdAt := i, status := st, progress := none, hash := none }

/-- C1: for every configured positive `maxHistory` and every sequence of
`insert` (`pushResult`) calls starting from the empty registry, after each
call the results list holds at most `maxHistory` records.  (The quantifier
over `l` covers every prefix of a call sequence.) -/
theorem c1_insert_bounded (m : Nat) (l : List GeneratedAsset) (hm : 0 < m) :
    (insertAll m l RegState.init).results.length ≤ m := by
  rw [insertAll_results m l RegState.init (by simp [RegState.init])]
  simpa using List.length_take_le m _

theorem c1_insert_bounded_witness :
    0 < 2 ∧
    (insertAll 2
      [sampleAsset 0 "u0" (some AssetStatus.ready),
       sampleAsset 1 "u1" (some AssetStatus.ready),
       sampleAsset 2 "u2" (some AssetStatus.ready)]
      RegState.init).results.length ≤ 2 :=
  ⟨by decide, c1_insert_bounded 2 _ (by decide)⟩

/-- C2: inserting `maxHistory + 1` records from the empty registry leaves
exactly the `maxHistory` most-recently-inserted records, newest first —
i.e. everything except the first-inserted record, reversed.  The statement
quantifies over arbitrary records, so the evicted record is determined by
insertion order alone, independent of the `createdAt` fields. -/
theorem c2_overflow_keeps_newest (m : Nat) (l : List GeneratedAsset)
    (hm : 0 < m) (hl : l.length = m + 1) :
    (insertAll m l RegState.init).results = (l.drop 1).reverse := by
  rw [insertAll_results m l RegState.init (by simp [RegState.init])]
  cases l with
  | nil => simp at hl
  | cons a t =>
    have ht : t.reverse.length = m := by simpa using hl
    simp only [RegState.init, List.append_nil, List.reverse_cons]
    rw [← ht, List.take_left]
    simp

theorem c2_overflow_keeps_newest_witness :
    0 < 2 ∧
    ([sampleAsset 0 "u0" (some AssetStatus.ready),
      sampleAsset 1 "u1" (some AssetStatus.ready),
      sampleAsset 2 "u2" (some AssetStatus.ready)] : List GeneratedAsset).length = 2 + 1 ∧
    (insertAll 2
      [sampleAsset 0 "u0" (some AssetStatus.ready),
       sampleAsset 1 "u1" (some AssetStatus.ready),
       sampleAsset 2 "u2" (some AssetStatus.ready)]
      RegState.init).results =
      ([sampleAsset 0 "u0" (some AssetStatus.ready),
        sampleAsset 1 "u1" (some AssetStatus.ready),
        sampleAsset 2 "u2" (some AssetStatus.ready)].drop 1).reverse :=
  ⟨by decide, by decide, c2_overflow_keeps_newest 2 _ (by decide) (by decide)⟩

/-- C3: when an insert overflows the capacity (the registry is full with
`maxHistory = m` records), the evicted record is the oldest (last) one, its
url is released exactly once — one new entry on `released` — and nothing is
released when the evicted record's handle is empty (`url = ""`, as for a
`pending` placeholder). -/
theorem c3_evicted_released_once (m : Nat) (a e : GeneratedAsset) (s : RegState)
    (hm : 0 < m) (hfull : s.results.length = m)
    (hlast : s.results.getLast? = some e) :
    (pushResult m a s).released =
      (if e.url = "" then s.released else e.url :: s.released) ∧
    (pushResult m a s).results = (a :: s.results).dropLast := by
  have hover : (a :: s.results).length > m := by simp [hfull]
  have hne : s.results ≠ [] := by
    intro h
    rw [h] at hfull
    simp at hfull
    omega
  have hlast' : (a :: s.results).getLast? = some e := by
    cases hres : s.results with
    | nil => exact absurd hres hne
    | cons b t =>
      rw [List.getLast?_cons_cons]
      rw [hres] at hlast
      exact hlast
  unfold pushResult
  simp only [hover, if_pos]
  refine ⟨?_, trivial⟩
  rw [hlast']
  rfl

theorem c3_evicted_released_once_witness :
    0 < 1 ∧
    (RegState.mk [sampleAsset 0 "blob:0" (some AssetStatus.ready)] []).results.length = 1 ∧
    (RegState.mk [sampleAsset 0 "blob:0" (some AssetStatus.ready)] []).results.getLast? =
      some (sampleAsset 0 "blob:0" (some AssetStatus.ready)) ∧
    ((pushResult 1 (sampleAsset 1 "u1" (some AssetStatus.ready))
        (RegState.mk [sampleAsset 0 "blob:0" (some AssetStatus.ready)] [])).released =
      (if (sampleAsset 0 "blob:0" (some AssetStatus.ready)).url = "" then []
       else (sampleAsset 0 "blob:0" (some AssetStatus.ready)).url :: []) ∧
     (pushResult 1 (sampleAsset 1 "u1" (some AssetStatus.ready))
        (RegState.mk [sampleAsset 0 "blob:0" (some AssetStatus.ready)] [])).results =
      ((sampleAsset 1 "u1" (some AssetStatus.ready)) ::
        [sampleAsset 0 "blob:0" (some AssetStatus.ready)]).dropLast) :=
  ⟨by decide, by decide, by decide,
    c3_evicted_released_once 1 _ _ _ (by decide) (by decide) (by decide)⟩

/-! ### Removal: lookup and filtering under unique ids

The spec's data model declares `id` an "opaque unique string" (ids come from
`generateId()`, a UUID), so the registry never holds two records with the
same id; the lemmas and claim statements below carry that invariant as the
`Nodup` hypothesis on `results.map id`. -/

/-- With pairwise-distinct ids, `find?` by a member's id finds exactly that
member. -/
theorem find?_id_eq_some (l : List GeneratedAsset) (a : GeneratedAsset)
    (hm : a ∈ l) (hnd : (l.map GeneratedAsset.id).Nodup) :
    l.find? (fun x => x.id == a.id) = some a := by
  induction l with
  | nil => simp at hm
  | cons b t ih =>
    rw [List.map_cons] at hnd
    have hbn := (List.nodup_cons.mp hnd).1
    have hnd' := (List.nodup_cons.mp hnd).2
    rcases List.mem_cons.mp hm with rfl | ht
    · simp [List.find?]
    · have hne : (b.id == a.id) = false := by
        simp only [beq_eq_false_iff_ne, ne_eq]
        intro h
        exact hbn (h ▸ List.mem_map_of_mem GeneratedAsset.id ht)
      simp only [List.find?, hne]
      exact ih ht hnd'

/-- With pairwise-distinct ids, filtering out a member's id removes exactly
that member and keeps every other record, in order. -/
theorem filter_ne_id (l : List GeneratedAsset) (a : GeneratedAsset)
    (hm : a ∈ l) (hnd : (l.map GeneratedAsset.id).Nodup) :
    ∃ l1 l2, l = l1 ++ a :: l2 ∧
      l.filter (fun x => x.id != a.id) = l1 ++ l2 := by
  induction l with
  | nil => simp at hm
  | cons b t ih =>
    rw [List.map_cons] at hnd
    have hbn := (List.nodup_cons.mp hnd).1
    have hnd' := (List.nodup_cons.mp hnd).2
    rcases List.mem_cons.mp hm with rfl | ht
    · refine ⟨[], t, rfl, ?_⟩
      rw [List.filter_cons]
      have hpa : (a.id != a.id) = false := by simp
      rw [hpa]
      simp only [Bool.false_eq_true, if_false, List.nil_append]
      refine List.filter_eq_self.mpr ?_
      intro x hx
      simp only [bne_iff_ne, ne_eq]
      intro h
      exact hbn (h ▸ List.mem_map_of_mem GeneratedAsset.id hx)
    · obtain ⟨l1, l2, hdec, hfil⟩ := ih ht hnd'
      refine ⟨b :: l1, l2, by rw [hdec]; rfl, ?_⟩
      rw [List.filter_cons]
      have hpb : (b.id != a.id) = true := by
        simp only [bne_iff_ne, ne_eq]
        intro h
        exact hbn (h ▸ List.mem_map_of_mem GeneratedAsset.id ht)
      rw [hpb]
      simp only [if_true, hfil, List.cons_append]

/-- C4: `removeAsset` on the id of a `pending` record (ids unique) is
refused and leaves the registry completely unchanged — nothing removed,
nothing released. -/
theorem c4_remove_pending_refused (s : RegState) (a : GeneratedAsset)
    (hnd : (s.results.map GeneratedAsset.id).Nodup) (hm : a ∈ s.results)
    (hp : a.status = some AssetStatus.pending) :
    removeAsset a.id s = (false, s) := by
  unfold removeAsset
  rw [find?_id_eq_some s.results a hm hnd]
  simp [hp]

theorem c4_remove_pending_refused_witness :
    ((RegState.mk [sampleAsset 0 "" (some AssetStatus.pending)] []).results.map
      GeneratedAsset.id).Nodup ∧
    sampleAsset 0 "" (some AssetStatus.pending) ∈
      (RegState.mk [sampleAsset 0 "" (some AssetStatus.pending)] []).results ∧
    (sampleAsset 0 "" (some AssetStatus.pending)).status = some AssetStatus.pending ∧
    removeAsset (sampleAsset 0 "" (some AssetStatus.pending)).id
      (RegState.mk [sampleAsset 0 "" (some AssetStatus.pending)] []) =
      (false, RegState.mk [sampleAsset 0 "" (some AssetStatus.pending)] []) :=
  ⟨by decide, by decide, by decide,
    c4_remove_pending_refused _ _ (by decide) (by decide) (by decide)⟩

/-- C5: `removeAsset` on the id of a `ready` or `error` record (ids unique)
removes exactly that record — all other records survive in order — and
releases its handle, a no-op release when the handle is empty (as for an
`error` record whose url stayed `""`). -/
theorem c5_remove_ready_or_error (s : RegState) (a : GeneratedAsset)
    (hnd : (s.results.map GeneratedAsset.id).Nodup) (hm : a ∈ s.results)
    (hs : a.status = some AssetStatus.ready ∨ a.status = some AssetStatus.error) :
    ∃ l1 l2, s.results = l1 ++ a :: l2 ∧
      removeAsset a.id s =
        (true,
          { results := l1 ++ l2
            released := if a.url = "" then s.released else a.url :: s.released }) := by
  obtain ⟨l1, l2, hdec, hfil⟩ := filter_ne_id s.results a hm hnd
  refine ⟨l1, l2, hdec, ?_⟩
  have hfind := find?_id_eq_some s.results a hm hnd
  have hnp : ¬ a.status = some AssetStatus.pending := by
    rcases hs with h | h <;> simp [h]
  simp only [removeAsset, hfind, if_neg hnp, hfil]
  rfl

theorem c5_remove_ready_or_error_witness :
    ((RegState.mk [sampleAsset 1 "blob:1" (some AssetStatus.ready),
        sampleAsset 0 "blob:0" (some AssetStatus.ready)] []).results.map
      GeneratedAsset.id).Nodup ∧
    sampleAsset 1 "blob:1" (some AssetStatus.ready) ∈
      (RegState.mk [sampleAsset 1 "blob:1" (some AssetStatus.ready),
        sampleAsset 0 "blob:0" (some AssetStatus.ready)] []).results ∧
    ((sampleAsset 1 "blob:1" (some AssetStatus.ready)).status = some AssetStatus.ready ∨
      (sampleAsset 1 "blob:1" (some AssetStatus.ready)).status = some AssetStatus.error) ∧
    (∃ l1 l2,
      (RegState.mk [sampleAsset 1 "blob:1" (some AssetStatus.ready),
        sampleAsset 0 "blob:0" (some AssetStatus.ready)] []).results = l1 ++
          sampleAsset 1 "blob:1" (some AssetStatus.ready) :: l2 ∧
      removeAsset (sampleAsset 1 "blob:1" (some AssetStatus.ready)).id
        (RegState.mk [sampleAsset 1 "blob:1" (some AssetStatus.ready),
          sampleAsset 0 "blob:0" (some AssetStatus.ready)] []) =
        (true,
          { results := l1 ++ l2
            released :=
              if (sampleAsset 1 "blob:1" (some AssetStatus.ready)).url = "" then []
              else (sampleAsset 1 "blob:1" (some AssetStatus.ready)).url :: [] })) :=
  ⟨by decide, by decide, Or.inl (by decide),
    c5_remove_ready_or_error _ _ (by decide) (by decide) (Or.inl (by decide))⟩

/-! ### The producer's completion writes -/

/-- The payload of a successful generation: the values written to the
placeholder at VideoGenerator.vue lines 178-183 (`url` from
`URL.createObjectURL(blob)`, `size`, `sizeLabel`, `hash`). -/
structure VideoOutput where
  url : String
  size : Nat
  sizeLabel : String
  hash : String
deriving DecidableEq

/-- The completion writes of `generateVideo` on its placeholder: on success
(lines 178-183) set `url`, `size`, `sizeLabel`, `status := ready`,
`progress := 1`, `hash`; on failure (lines 194-196) set `status := error`,
`sizeLabel := "生成失败"`, `detail := message` — the `url` field is not
touched on failure. -/
def completeVideo (outcome : Option VideoOutput) (errMsg : String)
    (p : GeneratedAsset) : GeneratedAsset :=
  match outcome with
  | some out =>
    { p with url := out.url, size := out.size, sizeLabel := out.sizeLabel
             status := some AssetStatus.ready, progress := some 1
             hash := some out.hash }
  | none =>
    { p with status := some AssetStatus.error, sizeLabel := "生成失败"
             detail := errMsg }

/-- Registry-level effect of the producer mutating its `placeholder` object
in place: the in-place mutation is visible through the `results` array
exactly at the aliased element, i.e. the record carrying the placeholder's
(unique) id; when that id is no longer present (the record was evicted) the
stored sequence is unaffected. -/
def updateById (id : String) (f : GeneratedAsset → GeneratedAsset)
    (s : RegState) : RegState :=
  { s with results := s.results.map (fun r => if r.id = id then f r else r) }

/-- C8: the producer's completion update for an id no longer present in the
registry is a no-op on the registry — it is a total function (no exception)
and the stored state is unchanged. -/
theorem c8_update_missing_noop (s : RegState) (id : String)
    (outcome : Option VideoOutput) (errMsg : String)
    (h : ∀ r ∈ s.results, r.id ≠ id) :
    updateById id (completeVideo outcome errMsg) s = s := by
  unfold updateById
  have hmap :
      s.results.map
        (fun r => if r.id = id then completeVideo outcome errMsg r else r) =
        s.results :=
    (List.map_congr_left (fun r hr => by simp [h r hr])).trans (List.map_id s.results)
  rw [hmap]

theorem c8_update_missing_noop_witness :
    (∀ r ∈ (RegState.mk [sampleAsset 0 "blob:0" (some AssetStatus.ready)] []).results,
      r.id ≠ "9") ∧
    updateById "9"
      (completeVideo (some (VideoOutput.mk "blob:9" 3 "3 B" "h")) "")
      (RegState.mk [sampleAsset 0 "blob:0" (some AssetStatus.ready)] []) =
      RegState.mk [sampleAsset 0 "blob:0" (some AssetStatus.ready)] [] :=
  ⟨by decide, c8_update_missing_noop _ _ _ _ (by decide)⟩

/-! ### The VideoGenerator as a transition system -/

/-- The placeholder record created by `generateVideo` (VideoGenerator.vue
lines 113-125): `pending` status, empty url, zero size.  `name` follows
`${videoConfig.text || 'video'}-${width}x${height}.mp4` (`||` takes the
fallback on the empty string); the duration label `detail` is display-only
floating-point formatting, abstracted as a given string. -/
def mkPlaceholder (id text detail : String) (width height createdAt : Nat) :
    GeneratedAsset :=
  { id := id, kind := AssetKind.video, url := "", mime := "video/mp4"
    name := (if text = "" then "video" else text) ++ "-" ++ toString width ++
      "x" ++ toString height ++ ".mp4"
    detail := detail, size := 0, sizeLabel := "生成中", createdAt := createdAt
    status := some AssetStatus.pending, progress := some 0, hash := none }

/-- VideoGenerator component state: the registry plus the
`isVideoGenerating` flag and, while a generation is in flight, the id of
the placeholder owned by the running `generateVideo` invocation (its local
`placeholder` variable). -/
structure VGState where
  reg : RegState
  isVideoGenerating : Bool
  inflightId : Option String
deriving DecidableEq

def VGState.init : VGState := ⟨RegState.init, false, none⟩

/-- One synchronous segment of the VideoGenerator.  JavaScript runs each
segment between `await` points atomically on the single browser thread, so
each constructor is one atomic step:

* `start`: a `generateVideo` call past the `isVideoGenerating` guard
  (line 106) — enabled only while the flag is down; it raises the flag and
  pushes a fresh placeholder before the first `await` (lines 107-126).
  `generateId()` yields a fresh UUID, hence the freshness hypothesis (the
  spec: "id: opaque unique string ... generated at creation").
* `finish`: the segment after the last `await`: the owning producer writes
  its success or failure outcome into its placeholder (lines 178-183 /
  194-196) and the `finally` block lowers the flag (line 202).
* `remove`: a user-initiated delete click (`removeAsset`, lines 216-222).

A `generateVideo` call that hits the guard returns without changing state
and needs no constructor. -/
inductive VGStep (m : Nat) : VGState → VGState → Prop
  | start (s : VGState) (id text detail : String) (w h createdAt : Nat) :
      s.isVideoGenerating = false →
      id ∉ s.reg.results.map GeneratedAsset.id →
      VGStep m s
        ⟨pushResult m (mkPlaceholder id text detail w h createdAt) s.reg,
          true, some id⟩
  | finish (s : VGState) (id : String) (outcome : Option VideoOutput)
      (errMsg : String) :
      s.isVideoGenerating = true →
      s.inflightId = some id →
      VGStep m s ⟨updateById id (completeVideo outcome errMsg) s.reg, false, none⟩
  | remove (s : VGState) (id : String) :
      VGStep m s ⟨(removeAsset id s.reg).2, s.isVideoGenerating, s.inflightId⟩

/-- States of the VideoGenerator reachable from the mounted component
(empty registry, flag down, no producer in flight). -/
inductive VGReach (m : Nat) : VGState → Prop
  | init : VGReach m VGState.init
  | step {s s' : VGState} : VGReach m s → VGStep m s s' → VGReach m s'

/-- Reachability invariant of the VideoGenerator: ids are pairwise
distinct; when no producer is in flight no record is `pending`; while a
producer is in flight, the `pending` records are exactly those carrying the
in-flight id — at most one, still with an empty url. -/
def VGInv (s : VGState) : Prop :=
  (s.reg.results.map GeneratedAsset.id).Nodup ∧
  match s.inflightId with
  | none =>
      s.isVideoGenerating = false ∧
      ∀ r ∈ s.reg.results, r.status ≠ some AssetStatus.pending
  | some i =>
      s.isVideoGenerating = true ∧
      (∀ r ∈ s.reg.results, (r.status = some AssetStatus.pending ↔ r.id = i)) ∧
      (∀ r ∈ s.reg.results, r.id = i → r.url = "")

/-- Every record after a `pushResult` is the pushed record or an old one. -/
theorem mem_pushResult {m : Nat} {a r : GeneratedAsset} {s : RegState}
    (h : r ∈ (pushResult m a s).results) : r = a ∨ r ∈ s.results := by
  unfold pushResult at h
  by_cases hc : (a :: s.results).length > m
  · simp only [hc, if_pos] at h
    exact List.mem_cons.mp ((List.dropLast_sublist (a :: s.results)).mem h)
  · simp only [hc, if_neg, not_false_iff] at h
    exact List.mem_cons.mp h

/-- Pushing a record with a fresh id preserves distinctness of ids. -/
theorem nodup_pushResult {m : Nat} {a : GeneratedAsset} {s : RegState}
    (hfresh : a.id ∉ s.results.map GeneratedAsset.id)
    (hnd : (s.results.map GeneratedAsset.id).Nodup) :
    ((pushResult m a s).results.map GeneratedAsset.id).Nodup := by
  have hcons : ((a :: s.results).map GeneratedAsset.id).Nodup := by
    rw [List.map_cons]
    exact List.nodup_cons.mpr ⟨hfresh, hnd⟩
  unfold pushResult
  by_cases hc : (a :: s.results).length > m
  · simp only [hc, if_pos]
    exact hcons.sublist ((List.dropLast_sublist (a :: s.results)).map GeneratedAsset.id)
  · simp only [hc, if_neg, not_false_iff]
    exact hcons

/-- `removeAsset` only ever drops records (the kept ones, in order). -/
theorem removeAsset_results_sublist (assetId : String) (s : RegState) :
    List.Sublist (removeAsset assetId s).2.results s.results := by
  unfold removeAsset
  rcases hf : s.results.find? (fun item => item.id == assetId) with _ | a
  · simp only [hf]
    exact List.Sublist.refl _
  · simp only [hf]
    by_cases hp : a.status = some AssetStatus.pending
    · simp only [hp, if_pos]
      exact List.Sublist.refl _
    · simp only [hp, if_neg, not_false_iff]
      exact List.filter_sublist s.results

/-- `completeVideo` never changes the record's identity. -/
theorem completeVideo_id (outcome : Option VideoOutput) (errMsg : String)
    (p : GeneratedAsset) : (completeVideo outcome errMsg p).id = p.id := by
  cases outcome <;> rfl

/-- `completeVideo` lands on `ready` (success) or `error` (failure). -/
theorem completeVideo_status (outcome : Option VideoOutput) (errMsg : String)
    (p : GeneratedAsset) :
    (completeVideo outcome errMsg p).status = some AssetStatus.ready ∨
      (completeVideo outcome errMsg p).status = some AssetStatus.error := by
  cases outcome
  · exact Or.inr rfl
  · exact Or.inl rfl

/-- The failure write leaves `url` untouched. -/
theorem completeVideo_none_url (errMsg : String) (p : GeneratedAsset) :
    (completeVideo none errMsg p).url = p.url := rfl

/-- `updateById` with an id-preserving mutation keeps the id sequence. -/
theorem map_id_updateById (i : String) (f : GeneratedAsset → GeneratedAsset)
    (s : RegState) (hf : ∀ p, (f p).id = p.id) :
    (updateById i f s).results.map GeneratedAsset.id =
      s.results.map GeneratedAsset.id := by
  unfold updateById
  rw [List.map_map]
  refine List.map_congr_left ?_
  intro r hr
  by_cases h : r.id = i <;> simp [h, hf]

/-- The invariant holds initially. -/
theorem VGInv_init : VGInv VGState.init := by
  simp [VGInv, VGState.init, RegState.init]

/-- Every step preserves the invariant. -/
theorem VGInv_step {m : Nat} {s s' : VGState} (hInv : VGInv s)
    (hstep : VGStep m s s') : VGInv s' := by
  obtain ⟨hnd, hrest⟩ := hInv
  cases hstep with
  | start id text detail w h createdAt hflag hfresh =>
    have hnop : ∀ r ∈ s.reg.results, r.status ≠ some AssetStatus.pending := by
      rcases hin : s.inflightId with _ | i
      · rw [hin] at hrest
        exact hrest.2
      · rw [hin] at hrest
        rw [hrest.1] at hflag
        exact Bool.noConfusion hflag
    refine ⟨nodup_pushResult hfresh hnd, rfl, ?_, ?_⟩
    · intro r hr
      rcases mem_pushResult hr with rfl | hold
      · exact ⟨fun _ => rfl, fun _ => rfl⟩
      · constructor
        · intro hp
          exact absurd hp (hnop r hold)
        · intro hid
          exact absurd (hid ▸ List.mem_map_of_mem GeneratedAsset.id hold) hfresh
    · intro r hr hid
      rcases mem_pushResult hr with rfl | hold
      · rfl
      · exact absurd (hid ▸ List.mem_map_of_mem GeneratedAsset.id hold) hfresh
  | finish id outcome errMsg hflag hin =>
    rw [hin] at hrest
    obtain ⟨-, hiff, hurl⟩ := hrest
    refine ⟨?_, rfl, ?_⟩
    · rw [map_id_updateById id _ s.reg (completeVideo_id outcome errMsg)]
      exact hnd
    · intro r' hr'
      simp only [updateById, List.mem_map] at hr'
      obtain ⟨r, hr, hrw⟩ := hr'
      by_cases hid : r.id = id
      · rw [if_pos hid] at hrw
        rcases completeVideo_status outcome errMsg r with hst | hst <;>
          rw [← hrw] at * <;> simp [hst]
      · rw [if_neg hid] at hrw
        rw [← hrw]
        intro hp
        exact hid ((hiff r hr).mp hp)
  | remove id =>
    have hsub := removeAsset_results_sublist id s.reg
    refine ⟨hnd.sublist (hsub.map GeneratedAsset.id), ?_⟩
    rcases hin : s.inflightId with _ | i <;> rw [hin] at hrest
    · exact ⟨hrest.1, fun r hr => hrest.2 r (hsub.mem hr)⟩
    · exact ⟨hrest.1, fun r hr => hrest.2.1 r (hsub.mem hr),
        fun r hr => hrest.2.2 r (hsub.mem hr)⟩

/-- Every reachable state of the VideoGenerator satisfies the invariant. -/
theorem VGReach_inv {m : Nat} {s : VGState} (h : VGReach m s) : VGInv s := by
  induction h with
  | init => exact VGInv_init
  | step _ hstep ih => exact VGInv_step ih hstep

/-- With pairwise-distinct ids, at most one record satisfies an
id-determined predicate. -/
theorem countP_id_le_one (l : List GeneratedAsset) (i : String)
    (hnd : (l.map GeneratedAsset.id).Nodup)
    (p : GeneratedAsset → Bool) (hp : ∀ r ∈ l, p r = true → r.id = i) :
    l.countP p ≤ 1 := by
  induction l with
  | nil => simp
  | cons b t ih =>
    rw [List.map_cons] at hnd
    have hbn := (List.nodup_cons.mp hnd).1
    have hnd' := (List.nodup_cons.mp hnd).2
    rw [List.countP_cons]
    by_cases hb : p b = true
    · have hbi : b.id = i := hp b (List.mem_cons_self b t) hb
      have ht0 : t.countP p = 0 := by
        refine List.countP_eq_zero.mpr ?_
        intro x hx hpx
        have hxi : x.id = i := hp x (List.mem_cons_of_mem b hx) hpx
        exact hbn ((hbi.trans hxi.symm) ▸ List.mem_map_of_mem GeneratedAsset.id hx)
      simp [hb, ht0]
    · have hb' : p b = false := by
        cases h : p b
        · rfl
        · exact absurd h hb
      have := ih hnd' (fun r hr hpr => hp r (List.mem_cons_of_mem b hr) hpr)
      simpa [hb'] using this

/-- At most one `pending` record is ever present in the video registry:
generation requests are serialized by the `isVideoGenerating` guard. -/
theorem pending_count_le_one {m : Nat} {s : VGState} (h : VGReach m s) :
    s.reg.results.countP
      (fun r => decide (r.status = some AssetStatus.pending)) ≤ 1 := by
  obtain ⟨hnd, hrest⟩ := VGReach_inv h
  rcases hin : s.inflightId with _ | i <;> rw [hin] at hrest
  · have h0 : s.reg.results.countP
        (fun r => decide (r.status = some AssetStatus.pending)) = 0 := by
      refine List.countP_eq_zero.mpr ?_
      intro r hr
      simpa using hrest.2 r hr
    omega
  · refine countP_id_le_one s.reg.results i hnd _ ?_
    intro r hr hpr
    exact (hrest.2.1 r hr).mp (by simpa using hpr)

/-- C6: across any step of the VideoGenerator the status of a surviving
record (matched by its unique id) evolves only along pending→ready and
pending→error; `ready` and `error` are terminal, and a record that
transitions to `error` keeps its url, which is still the placeholder's
empty handle. -/
theorem c6_status_transitions (m : Nat) (s s' : VGState)
    (hreach : VGReach m s) (hstep : VGStep m s s')
    (r r' : GeneratedAsset) (hr : r ∈ s.reg.results) (hr' : r' ∈ s'.reg.results)
    (hid : r'.id = r.id) :
    ((r.status = some AssetStatus.ready ∨ r.status = some AssetStatus.error) →
      r'.status = r.status) ∧
    (r.status = some AssetStatus.pending →
      r'.status = some AssetStatus.pending ∨ r'.status = some AssetStatus.ready ∨
        (r'.status = some AssetStatus.error ∧ r'.url = "")) := by
  obtain ⟨hnd, hrest⟩ := VGReach_inv hreach
  cases hstep with
  | start id text detail w h createdAt hflag hfresh =>
    rcases mem_pushResult hr' with rfl | hold
    · have hmem : r.id ∈ s.reg.results.map GeneratedAsset.id :=
        List.mem_map_of_mem GeneratedAsset.id hr
      rw [← hid] at hmem
      exact absurd hmem hfresh
    · have heq : r' = r := List.inj_on_of_nodup_map hnd hold hr hid
      subst heq
      exact ⟨fun _ => rfl, fun hp => Or.inl hp⟩
  | finish id outcome errMsg hflag hin =>
    rw [hin] at hrest
    obtain ⟨-, hiff, hurl⟩ := hrest
    simp only [updateById, List.mem_map] at hr'
    obtain ⟨r0, hr0, hrw⟩ := hr'
    by_cases hid0 : r0.id = id
    · rw [if_pos hid0] at hrw
      have hr'id : r'.id = r0.id := by
        rw [← hrw]
        exact completeVideo_id outcome errMsg r0
      have heq : r0 = r :=
        List.inj_on_of_nodup_map hnd hr0 hr (by rw [← hr'id]; exact hid)
      subst heq
      have hp : r0.status = some AssetStatus.pending := (hiff r0 hr0).mpr hid0
      constructor
      · intro hready
        rcases hready with h | h <;> rw [h] at hp <;> exact Option.noConfusion hp
          (fun e => AssetStatus.noConfusion e)
      · intro _
        cases outcome with
        | none =>
          refine Or.inr (Or.inr ⟨by rw [← hrw]; rfl, ?_⟩)
          rw [← hrw, completeVideo_none_url]
          exact hurl r0 hr0 hid0
        | some out =>
          exact Or.inr (Or.inl (by rw [← hrw]; rfl))
    · rw [if_neg hid0] at hrw
      have heq : r0 = r := List.inj_on_of_nodup_map hnd hr0 hr (by rw [hrw]; exact hid)
      subst heq
      rw [← hrw]
      exact ⟨fun _ => rfl, fun hp => Or.inl hp⟩
  | remove id =>
    have hold : r' ∈ s.reg.results := (removeAsset_results_sublist id s.reg).mem hr'
    have heq : r' = r := List.inj_on_of_nodup_map hnd hold hr hid
    subst heq
    exact ⟨fun _ => rfl, fun hp => Or.inl hp⟩

/-- C7, negation of the claim as stated: there is no configuration and no
sequence of VideoGenerator operations after which two `pending` records
coexist in the registry — `generateVideo` refuses to start while a
generation is in flight (the `isVideoGenerating` guard at line 106), and
every completed generation leaves no `pending` record behind. -/
theorem c7_two_pending_cex :
    ¬ ∃ (m : Nat) (s : VGState), 0 < m ∧ VGReach m s ∧
      2 ≤ s.reg.results.countP
        (fun r => decide (r.status = some AssetStatus.pending)) := by
  rintro ⟨m, s, -, hreach, h2⟩
  have h1 := pending_count_le_one hreach
  omega

/-- C7 amended: at most one `pending` record is ever present in the video
registry (generation requests are serialized by the `isVideoGenerating`
guard), and any `pending` record is the one owned by the unique in-flight
producer, which is the only writer of its state transition. -/
theorem c7_at_most_one_pending (m : Nat) (s : VGState) (h : VGReach m s) :
    s.reg.results.countP
      (fun r => decide (r.status = some AssetStatus.pending)) ≤ 1 ∧
    ∀ r ∈ s.reg.results, r.status = some AssetStatus.pending →
      s.inflightId = some r.id := by
  refine ⟨pending_count_le_one h, ?_⟩
  obtain ⟨-, hrest⟩ := VGReach_inv h
  intro r hr hp
  rcases hin : s.inflightId with _ | i <;> rw [hin] at hrest
  · exact absurd hp (hrest.2 r hr)
  · rw [(hrest.2.1 r hr).mp hp]

/-! ### Concrete reachable VideoGenerator states for the witnesses -/

def vgOut : VideoOutput := ⟨"blob:9", 3, "3 B", "h"⟩

def vgPlaceholder : GeneratedAsset := mkPlaceholder "a" "t" "d" 1 1 0

def vgS1 : VGState := ⟨pushResult 2 vgPlaceholder RegState.init, true, some "a"⟩

def vgS2 : VGState :=
  ⟨updateById "a" (completeVideo (some vgOut) "") vgS1.reg, false, none⟩

theorem vgReach1 : VGReach 2 vgS1 :=
  VGReach.step VGReach.init
    (VGStep.start VGState.init "a" "t" "d" 1 1 0 rfl (by decide))

theorem vgStep12 : VGStep 2 vgS1 vgS2 :=
  VGStep.finish vgS1 "a" (some vgOut) "" rfl rfl

theorem c6_status_transitions_witness :
    VGReach 2 vgS1 ∧ VGStep 2 vgS1 vgS2 ∧
    vgPlaceholder ∈ vgS1.reg.results ∧
    completeVideo (some vgOut) "" vgPlaceholder ∈ vgS2.reg.results ∧
    (completeVideo (some vgOut) "" vgPlaceholder).id = vgPlaceholder.id ∧
    ((((vgPlaceholder.status = some AssetStatus.ready ∨
        vgPlaceholder.status = some AssetStatus.error) →
      (completeVideo (some vgOut) "" vgPlaceholder).status = vgPlaceholder.status) ∧
      (vgPlaceholder.status = some AssetStatus.pending →
        (completeVideo (some vgOut) "" vgPlaceholder).status = some AssetStatus.pending ∨
        (completeVideo (some vgOut) "" vgPlaceholder).status = some AssetStatus.ready ∨
        ((completeVideo (some vgOut) "" vgPlaceholder).status = some AssetStatus.error ∧
          (completeVideo (some vgOut) "" vgPlaceholder).url = "")))) :=
  ⟨vgReach1, vgStep12, by decide, by decide, by decide,
    c6_status_transitions 2 vgS1 vgS2 vgReach1 vgStep12 _ _
      (by decide) (by decide) (by decide)⟩

theorem c7_at_most_one_pending_witness :
    VGReach 2 vgS1 ∧
    (vgS1.reg.results.countP
      (fun r => decide (r.status = some AssetStatus.pending)) ≤ 1 ∧
    ∀ r ∈ vgS1.reg.results, r.status = some AssetStatus.pending →
      vgS1.inflightId = some r.id) :=
  ⟨vgReach1, c7_at_most_one_pending 2 vgS1 vgReach1⟩

/-! ### The shared FFmpeg engine (`src/lib/ffmpeg.ts`) -/

/-- Module state of `src/lib/ffmpeg.ts`: the `instance` and
`loadingPromise` module-level variables.  Engines and load promises are
identified by the numeric id of the load that produced them;
`loadsStarted` counts the `createInstance()` loads ever begun, making "no
second load is started" provable. -/
structure FFState where
  inst : Option Nat
  loadingPromise : Option Nat
  loadsStarted : Nat
deriving DecidableEq

/-- What a `getFFmpeg()` call hands its caller: the already-created shared
engine, or the shared loading promise it awaits. -/
inductive FFResult
  | cached (i : Nat)
  | awaitLoad (p : Nat)
deriving DecidableEq

def FFState.init : FFState := ⟨none, none, 0⟩

/-- The synchronous body of `getFFmpeg` (ffmpeg.ts lines 18-32): return
`instance` when present; otherwise start a load only when `loadingPromise`
is null; in either case hand back the shared `loadingPromise`.  `fresh`
identifies the load this call would start. -/
def getFFmpeg (s : FFState) (fresh : Nat) : FFResult × FFState :=
  match s.inst with
  | some i => (FFResult.cached i, s)
  | none =>
    match s.loadingPromise with
    | some p => (FFResult.awaitLoad p, s)
    | none =>
      (FFResult.awaitLoad fresh,
        { s with loadingPromise := some fresh
                 loadsStarted := s.loadsStarted + 1 })

/-- Failure-free evolution of the module state: any interleaving of
`getFFmpeg` calls and the `.then` handler of a successful load, which
publishes the engine into `instance` (`loadingPromise` stays set).  The
`.catch` handler of a failed load (which resets `loadingPromise` so a
retry may load again) is excluded: the one-shot latch is claimed for the
lifecycle uninitialized → initializing → ready. -/
inductive FFReachNF : FFState → Prop
  | init : FFReachNF FFState.init
  | call {s : FFState} (fresh : Nat) :
      FFReachNF s → FFReachNF (getFFmpeg s fresh).2
  | complete {s : FFState} {p : Nat} :
      FFReachNF s → s.loadingPromise = some p → FFReachNF { s with inst := some p }

/-- Latch invariant: before any load starts nothing is cached, and no
failure-free run ever starts a second load. -/
theorem ffInv {s : FFState} (h : FFReachNF s) :
    (s.loadingPromise = none → s.inst = none ∧ s.loadsStarted = 0) ∧
      s.loadsStarted ≤ 1 := by
  induction h with
  | init => exact ⟨fun _ => ⟨rfl, rfl⟩, Nat.zero_le 1⟩
  | @call s fresh _ ih =>
    unfold getFFmpeg
    rcases hinst : s.inst with _ | i
    · rcases hlp : s.loadingPromise with _ | p
      · obtain ⟨hnone, -⟩ := ih
        have h0 : s.loadsStarted = 0 := (hnone hlp).2
        exact ⟨fun hcontra => Option.noConfusion hcontra, by simp [h0]⟩
      · exact ih
    · exact ih
  | @complete s p _ hp ih =>
    refine ⟨fun hcontra => ?_, ih.2⟩
    rw [hp] at hcontra
    exact Option.noConfusion hcontra

/-- C9: `getFFmpeg` performs a single initialization guarded by a one-shot
latch.  Once the engine exists every call returns the same cached engine
without touching the state; while a load is in flight every call awaits
that same promise without touching the state; and along every failure-free
run at most one load is ever started. -/
theorem c9_single_initialization :
    (∀ (s : FFState) (fresh i : Nat), s.inst = some i →
      getFFmpeg s fresh = (FFResult.cached i, s)) ∧
    (∀ (s : FFState) (fresh p : Nat), s.inst = none → s.loadingPromise = some p →
      getFFmpeg s fresh = (FFResult.awaitLoad p, s)) ∧
    (∀ s : FFState, FFReachNF s → s.loadsStarted ≤ 1) := by
  refine ⟨?_, ?_, ?_⟩
  · intro s fresh i h
    unfold getFFmpeg
    rw [h]
  · intro s fresh p h1 h2
    unfold getFFmpeg
    rw [h1, h2]
  · intro s h
    exact (ffInv h).2

theorem ffReach1 : FFReachNF ⟨none, some 0, 1⟩ :=
  FFReachNF.call 0 FFReachNF.init

theorem c9_single_initialization_witness :
    ((⟨some 7, some 7, 1⟩ : FFState).inst = some 7 ∧
      getFFmpeg ⟨some 7, some 7, 1⟩ 9 = (FFResult.cached 7, ⟨some 7, some 7, 1⟩)) ∧
    ((⟨none, some 4, 1⟩ : FFState).inst = none ∧
      (⟨none, some 4, 1⟩ : FFState).loadingPromise = some 4 ∧
      getFFmpeg ⟨none, some 4, 1⟩ 9 = (FFResult.awaitLoad 4, ⟨none, some 4, 1⟩)) ∧
    (FFReachNF ⟨none, some 0, 1⟩ ∧ (⟨none, some 0, 1⟩ : FFState).loadsStarted ≤ 1) :=
  ⟨⟨rfl, c9_single_initialization.1 _ 9 7 rfl⟩,
    ⟨rfl, rfl, c9_single_initialization.2.1 _ 9 4 rfl rfl⟩,
    ⟨ffReach1, c9_single_initialization.2.2 _ ffReach1⟩⟩

/-! ### Derivative and image generators (ready-only registries) -/

/-- `URL.createObjectURL`: yields a non-empty `blob:` URL for an in-memory
payload. -/
def createObjectURL (handle : Nat) : String := "blob:" ++ toString handle

theorem createObjectURL_ne_empty (n : Nat) : createObjectURL n ≠ "" := by
  intro h
  have hlen := congrArg String.length h
  unfold createObjectURL at hlen
  rw [String.length_append] at hlen
  have h5 : ("blob:" : String).length = 5 := rfl
  have h0 : ("" : String).length = 0 := rfl
  omega

/-- The asset built by `deriveMaterial` on success (DerivativeGenerator.vue
lines 183-195): always `ready`, url freshly created from the derived blob,
hash present.  `sizeLabel` abstracts `formatBytes` (display-only
floating-point formatting). -/
def mkDerivedAsset (id : String) (blob : Nat) (kind : AssetKind)
    (mime name detail sizeLabel hash : String) (size createdAt : Nat) :
    GeneratedAsset :=
  { id := id, kind := kind, url := createObjectURL blob, mime := mime
    name := name, detail := detail, size := size, sizeLabel := sizeLabel
    createdAt := createdAt, status := some AssetStatus.ready
    progress := none, hash := some hash }

/-- The asset built per iteration of `generateImage` (image-generator
component, lines 526-538): always `ready`, url freshly created from the
canvas blob, hash present. -/
def mkImageAsset (id : String) (blob : Nat)
    (mime name detail sizeLabel hash : String) (size createdAt : Nat) :
    GeneratedAsset :=
  { id := id, kind := AssetKind.image, url := createObjectURL blob
    mime := mime, name := name, detail := detail, size := size
    sizeLabel := sizeLabel, createdAt := createdAt
    status := some AssetStatus.ready, progress := none, hash := some hash }

/-- The derivative generator's registry operations: a successful
`deriveMaterial` inserts a fresh ready asset via `pushResult`; the user may
delete via `removeAssetD`.  A failed derivation inserts nothing. -/
inductive DGStep (m : Nat) : RegState → RegState → Prop
  | insert (s : RegState) (id : String) (blob : Nat) (kind : AssetKind)
      (mime name detail sizeLabel hash : String) (size createdAt : Nat) :
      DGStep m s (pushResult m
        (mkDerivedAsset id blob kind mime name detail sizeLabel hash size createdAt) s)
  | remove (s : RegState) (id : String) : DGStep m s (removeAssetD id s).2

/-- Registry states of the derivative generator reachable from mount. -/
inductive DGReach (m : Nat) : RegState → Prop
  | init : DGReach m RegState.init
  | step {s s' : RegState} : DGReach m s → DGStep m s s' → DGReach m s'

/-- `removeAssetD` only ever drops records. -/
theorem removeAssetD_results_sublist (assetId : String) (s : RegState) :
    List.Sublist (removeAssetD assetId s).2.results s.results := by
  unfold removeAssetD
  rcases hf : s.results.find? (fun item => item.id == assetId) with _ | a
  · simp only [hf]
    exact List.Sublist.refl _
  · simp only [hf]
    exact List.filter_sublist s.results

/-- Every record ever present in the derivative registry is `ready`. -/
theorem dg_all_ready {m : Nat} {s : RegState} (h : DGReach m s) :
    ∀ r ∈ s.results, r.status = some AssetStatus.ready := by
  induction h with
  | init => simp [RegState.init]
  | step _ hstep ih =>
    cases hstep with
    | insert id blob kind mime name detail sizeLabel hash size createdAt =>
      intro r hr
      rcases mem_pushResult hr with rfl | hold
      · rfl
      · exact ih r hold
    | remove id =>
      intro r hr
      exact ih r ((removeAssetD_results_sublist id _).mem hr)

/-- C10: every asset inserted by the derivative generator and by the image
generator is `ready` with a non-empty url at the moment of insertion; only
the video generator creates `pending` placeholders, so every record the
derivative registry ever holds is `ready` and the record found (and
removed) by the guard-less `removeAssetD` is never `pending`. -/
theorem c10_nonvideo_inserts_ready :
    (∀ (id : String) (blob : Nat) (kind : AssetKind)
        (mime name detail sizeLabel hash : String) (size createdAt : Nat),
      (mkDerivedAsset id blob kind mime name detail sizeLabel hash size
          createdAt).status = some AssetStatus.ready ∧
      (mkDerivedAsset id blob kind mime name detail sizeLabel hash size
          createdAt).url ≠ "") ∧
    (∀ (id : String) (blob : Nat) (mime name detail sizeLabel hash : String)
        (size createdAt : Nat),
      (mkImageAsset id blob mime name detail sizeLabel hash size
          createdAt).status = some AssetStatus.ready ∧
      (mkImageAsset id blob mime name detail sizeLabel hash size
          createdAt).url ≠ "") ∧
    (∀ (m : Nat) (s : RegState), DGReach m s →
      ∀ r ∈ s.results, r.status = some AssetStatus.ready) ∧
    (∀ (m : Nat) (s : RegState) (assetId : String) (a : GeneratedAsset),
      DGReach m s → s.results.find? (fun item => item.id == assetId) = some a →
      a.status ≠ some AssetStatus.pending) := by
  refine ⟨fun _ _ _ _ _ _ _ _ _ _ => ⟨rfl, createObjectURL_ne_empty _⟩,
    fun _ _ _ _ _ _ _ _ _ => ⟨rfl, createObjectURL_ne_empty _⟩,
    fun m s h => dg_all_ready h, ?_⟩
  intro m s assetId a h hfind
  have hmem : a ∈ s.results := List.mem_of_find?_eq_some hfind
  rw [dg_all_ready h a hmem]
  simp

def dgAsset1 : GeneratedAsset :=
  mkDerivedAsset "d" 0 AssetKind.image "image/png" "n" "dt" "1 B" "h" 1 0

def dgS1 : RegState := pushResult 2 dgAsset1 RegState.init

theorem dgReach1 : DGReach 2 dgS1 :=
  DGReach.step DGReach.init
    (DGStep.insert RegState.init "d" 0 AssetKind.image "image/png" "n" "dt" "1 B" "h" 1 0)

theorem c10_nonvideo_inserts_ready_witness :
    DGReach 2 dgS1 ∧ dgAsset1 ∈ dgS1.results ∧
    dgS1.results.find? (fun item => item.id == "d") = some dgAsset1 ∧
    dgAsset1.status = some AssetStatus.ready ∧
    dgAsset1.status ≠ some AssetStatus.pending :=
  ⟨dgReach1, by decide, by decide,
    c10_nonvideo_inserts_ready.2.2.1 2 dgS1 dgReach1 dgAsset1 (by decide),
    c10_nonvideo_inserts_ready.2.2.2 2 dgS1 "d" dgAsset1 dgReach1 (by decide)⟩

end TestGenerator
